import Mathlib

/-!
Bank accounts: savings and current.

A shallow embedding of `Pinca_abstraction-and-encapsulation.cpp`.

Numeric model. The C++ type `double` is embedded as `ℚ`: every amount and
balance is a finite number and `+`, `-`, `<`, `<=` are exact.  Rounding,
infinities and NaN are outside this model.  The C++ type `int` is embedded as
`Int`; the program only compares such values.

Console output is embedded as data: each `deposit` / `withdraw` call returns,
next to the new account state, the `Outcome` it writes to `cout`.
-/

namespace Bank

/-! Console reports of one transaction -/

/-- Report written by one `deposit` or `withdraw` call.
* `Confirmed b`: the separator line followed by
  "> Your current (savings) balance is: b";
* `InvalidAmount`: "Invalid amount. Please enter a positive value!";
* `InsufficientFunds m`: "Insufficient balance!", where `m` is the minimum
  named in the message (`some 1000` for savings, `none` for current). -/
inductive Outcome where
  | Confirmed (newBalance : ℚ)
  | InvalidAmount
  | InsufficientFunds (minimum : Option ℚ)
  deriving DecidableEq

/-- True exactly for the confirmation report. -/
def Outcome.isConfirmed : Outcome → Bool
  | Outcome.Confirmed _ => true
  | Outcome.InvalidAmount => false
  | Outcome.InsufficientFunds _ => false

/-! SavingsAccount (source lines 23-55) -/

/-- State of a `SavingsAccount` object: the inherited `balance`.  The const
member `MINIMUM_BALANCE` holds 1000 in every constructed object and is the
constant below. -/
structure SavingsAccount where
  balance : ℚ
  deriving DecidableEq

/-- The member `const double MINIMUM_BALANCE = 1000;`. -/
def SavingsAccount.MINIMUM_BALANCE : ℚ := 1000

/-- The constructor `SavingsAccount() : Account(MINIMUM_BALANCE)` and its body.

C++ initialises the base class `Account` before the non-static data members
of the derived class, so the argument `MINIMUM_BALANCE` of `Account(...)` is
read before the default member initialiser `= 1000` has run.  The value read
there is indeterminate; it is the parameter `uninit`.  When the constructor
body runs the member does hold 1000, so the body compares `balance` with
1000 and raises it when it is lower. -/
def SavingsAccount.construct (uninit : ℚ) : SavingsAccount :=
  let self : SavingsAccount := { balance := uninit }
  if self.balance < SavingsAccount.MINIMUM_BALANCE then
    { self with balance := SavingsAccount.MINIMUM_BALANCE }
  else
    self

/-- The method `SavingsAccount::deposit`: `balance += amount;` then the
balance report. -/
def SavingsAccount.deposit (self : SavingsAccount) (amount : ℚ) :
    SavingsAccount × Outcome :=
  let self1 : SavingsAccount := { self with balance := self.balance + amount }
  (self1, Outcome.Confirmed self1.balance)

/-- The method `SavingsAccount::withdraw`. -/
def SavingsAccount.withdraw (self : SavingsAccount) (amount : ℚ) :
    SavingsAccount × Outcome :=
  if amount ≤ 0 then
    (self, Outcome.InvalidAmount)
  else if self.balance - amount < SavingsAccount.MINIMUM_BALANCE then
    (self, Outcome.InsufficientFunds (some SavingsAccount.MINIMUM_BALANCE))
  else
    let self1 : SavingsAccount := { self with balance := self.balance - amount }
    (self1, Outcome.Confirmed self1.balance)

/-- The const method `SavingsAccount::checkBalance`. -/
def SavingsAccount.checkBalance (self : SavingsAccount) : ℚ :=
  self.balance

/-! CurrentAccount (source lines 59-82) -/

/-- State of a `CurrentAccount` object: the inherited `balance`. -/
structure CurrentAccount where
  balance : ℚ
  deriving DecidableEq

/-- The constructor `CurrentAccount(double initialBalance)`. -/
def CurrentAccount.construct (initialBalance : ℚ) : CurrentAccount :=
  { balance := initialBalance }

/-- The method `CurrentAccount::deposit`. -/
def CurrentAccount.deposit (self : CurrentAccount) (amount : ℚ) :
    CurrentAccount × Outcome :=
  let self1 : CurrentAccount := { self with balance := self.balance + amount }
  (self1, Outcome.Confirmed self1.balance)

/-- The method `CurrentAccount::withdraw`. -/
def CurrentAccount.withdraw (self : CurrentAccount) (amount : ℚ) :
    CurrentAccount × Outcome :=
  if amount ≤ self.balance then
    let self1 : CurrentAccount := { self with balance := self.balance - amount }
    (self1, Outcome.Confirmed self1.balance)
  else
    (self, Outcome.InsufficientFunds none)

/-- The const method `CurrentAccount::checkBalance`. -/
def CurrentAccount.checkBalance (self : CurrentAccount) : ℚ :=
  self.balance

/-! The abstract class `Account` and virtual dispatch -/

/-- An object used through `Account &`: one of the two concrete classes. -/
inductive Account where
  | savings (s : SavingsAccount)
  | current (c : CurrentAccount)
  deriving DecidableEq

/-- Virtual call `account.deposit(amount)`. -/
def Account.deposit : Account → ℚ → Account × Outcome
  | Account.savings s, amount =>
      ((s.deposit amount).1 |> Account.savings, (s.deposit amount).2)
  | Account.current c, amount =>
      ((c.deposit amount).1 |> Account.current, (c.deposit amount).2)

/-- Virtual call `account.withdraw(amount)`. -/
def Account.withdraw : Account → ℚ → Account × Outcome
  | Account.savings s, amount =>
      ((s.withdraw amount).1 |> Account.savings, (s.withdraw amount).2)
  | Account.current c, amount =>
      ((c.withdraw amount).1 |> Account.current, (c.withdraw amount).2)

/-- Virtual call `account.checkBalance()`. -/
def Account.checkBalance : Account → ℚ
  | Account.savings s => s.checkBalance
  | Account.current c => c.checkBalance

/-- One call made on an account by the menu code: `deposit(amount)`,
`withdraw(amount)` or `checkBalance()`. -/
inductive Op where
  | deposit (amount : ℚ)
  | withdraw (amount : ℚ)
  | checkBalance
  deriving DecidableEq

/-- What a call makes visible: the report of a transaction, or the value
returned by `checkBalance()`. -/
inductive Event where
  | report (o : Outcome)
  | balance (b : ℚ)
  deriving DecidableEq

/-- Effect of one call: the state afterwards and what the call shows.
`checkBalance()` is a const method, its state afterwards is the object it
was called on. -/
def Account.step (a : Account) : Op → Account × Event
  | Op.deposit amount => ((a.deposit amount).1, Event.report (a.deposit amount).2)
  | Op.withdraw amount => ((a.withdraw amount).1, Event.report (a.withdraw amount).2)
  | Op.checkBalance => (a, Event.balance a.checkBalance)

/-- A sequence of calls, in order: the final state and the events shown. -/
def Account.run (a : Account) : List Op → Account × List Event
  | [] => (a, [])
  | op :: ops =>
      let r := a.step op
      let rs := Account.run r.1 ops
      (rs.1, r.2 :: rs.2)

/-- The amount of a transaction is strictly positive, as
`InputHandler::getPositiveAmount` is meant to supply it. -/
def Op.amountPositive : Op → Prop
  | Op.deposit amount => 0 < amount
  | Op.withdraw amount => 0 < amount
  | Op.checkBalance => True

instance : DecidablePred Op.amountPositive := fun op =>
  match op with
  | Op.deposit amount => inferInstanceAs (Decidable (0 < amount))
  | Op.withdraw amount => inferInstanceAs (Decidable (0 < amount))
  | Op.checkBalance => inferInstanceAs (Decidable True)

/-! InputHandler (source lines 85-118) -/

/-- Outcome of one extraction `cin >> x`: whether `cin.fail()` holds after
it, and the value that `x` holds after it. -/
structure ReadOutcome (α : Type) where
  failed : Bool
  value : α
  deriving DecidableEq

/-- Largest finite `double`, the value that a C++11 extraction stores, with
`failbit` set, when the text read is a number too large for the type (for
example `1e999`). -/
def DBL_MAX : ℚ := (2 ^ 53 - 1) * 2 ^ 971

/-- Result of `InputHandler::getPositiveAmount`: the amount returned, how
many times "Invalid input. Please enter a positive number." was printed, and
the read outcomes not consumed. -/
structure AmountResult where
  amount : ℚ
  invalidNotices : Nat
  rest : List (ReadOutcome ℚ)
  deriving DecidableEq

/-- The function `InputHandler::getPositiveAmount`, run on the outcomes of
the successive extractions `cin >> amount`.  One pass of the `do` body
consumes one outcome; the `if` prints the notice when the extraction failed
or the amount is not positive (and clears the stream state); the loop
condition `while (amount <= 0)` alone decides whether to read again.
`none`: the outcomes are used up before the loop ends. -/
def InputHandler.getPositiveAmount : List (ReadOutcome ℚ) → Option AmountResult
  | [] => none
  | r :: rest =>
      let amount := r.value
      let notices : Nat := if r.failed || decide (amount ≤ 0) then 1 else 0
      if amount ≤ 0 then
        (InputHandler.getPositiveAmount rest).map
          (fun res => { res with invalidNotices := notices + res.invalidNotices })
      else
        some { amount := amount, invalidNotices := notices, rest := rest }

/-- Result of `InputHandler::getMenuChoice`: the choice returned, how many
times "Invalid choice. Please try again." was printed, and the read outcomes
not consumed. -/
structure ChoiceResult where
  choice : Int
  invalidNotices : Nat
  rest : List (ReadOutcome Int)
  deriving DecidableEq

/-- The function `InputHandler::getMenuChoice`, run on the outcomes of the
successive extractions `cin >> choice`.  One pass of the `while (true)` body
consumes one outcome; the loop is left by `break` only in the `else` branch.
`none`: the outcomes are used up before the loop ends. -/
def InputHandler.getMenuChoice (min max : Int) :
    List (ReadOutcome Int) → Option ChoiceResult
  | [] => none
  | r :: rest =>
      let choice := r.value
      if r.failed || decide (choice < min) || decide (choice > max) then
        (InputHandler.getMenuChoice min max rest).map
          (fun res => { res with invalidNotices := 1 + res.invalidNotices })
      else
        some { choice := choice, invalidNotices := 0, rest := rest }

/-- A read that `getMenuChoice min max` rejects: the extraction failed or
the value is outside the inclusive range. -/
def ReadOutcome.rejectedChoice (min max : Int) (r : ReadOutcome Int) : Prop :=
  r.failed = true ∨ r.value < min ∨ max < r.value

/-- The floor each class is meant to keep: `MINIMUM_BALANCE` for a savings
account, zero for a current account. -/
def Account.floor : Account → ℚ
  | Account.savings _ => SavingsAccount.MINIMUM_BALANCE
  | Account.current _ => 0

/-- The balance is at or above the floor of the class. -/
def Account.aboveFloor (a : Account) : Prop :=
  a.floor ≤ a.checkBalance

/-- Calls of the spec scenarios 4 and 5 on the current account:
`withdraw(10)`, `deposit(200)`, `withdraw(200)`. -/
def currentCalls : List Op :=
  [Op.withdraw 10, Op.deposit 200, Op.withdraw 200]

/-- Three reads at the main menu (`getMenuChoice(1, 3)`): text that is not a
number (failed, 0 stored), the number 7, the number 2. -/
def menuReads : List (ReadOutcome Int) :=
  [{ failed := true, value := 0 }, { failed := false, value := 7 },
   { failed := false, value := 2 }]

/-! Theorems -/

/-- In both classes `deposit(d)` is confirmed and leaves `b + d`, for an
amount of any sign. -/
theorem deposit_adds (b d : ℚ) :
    ((SavingsAccount.mk b).deposit d).2 = Outcome.Confirmed (b + d) ∧
    ((SavingsAccount.mk b).deposit d).1.checkBalance = b + d ∧
    ((CurrentAccount.mk b).deposit d).2 = Outcome.Confirmed (b + d) ∧
    ((CurrentAccount.mk b).deposit d).1.checkBalance = b + d := by
  simp [SavingsAccount.deposit, CurrentAccount.deposit, SavingsAccount.checkBalance,
    CurrentAccount.checkBalance]

/-- The constructed savings balance is the larger of 1000 and the value read
from the member before its initialisation. -/
theorem construct_balance (g : ℚ) :
    (SavingsAccount.construct g).checkBalance = max g 1000 := by
  unfold SavingsAccount.construct SavingsAccount.MINIMUM_BALANCE SavingsAccount.checkBalance
  by_cases h : g < 1000
  · simp [h, max_eq_right (le_of_lt h)]
  · simp [h, max_eq_left (not_lt.mp h)]

/-- When the value read from the member is at most 1000 (as it is when the
member reads as 0 or as 1000), the constructed balance is 1000 and
`deposit(500)` leaves 1500. -/
theorem construct_low_then_deposit (g : ℚ) (hg : g ≤ 1000) :
    (SavingsAccount.construct g).checkBalance = 1000 ∧
    ((SavingsAccount.construct g).deposit 500).1.checkBalance = 1500 := by
  have h := construct_balance g
  rw [max_eq_right hg] at h
  simp only [SavingsAccount.checkBalance] at h
  refine ⟨h, ?_⟩
  simp only [SavingsAccount.deposit, SavingsAccount.checkBalance, h]
  norm_num

/-- C3. The default construction of a savings account when the member
`MINIMUM_BALANCE`, read before its initialisation, yields 2000: the balance
is 2000, not 1000, and `deposit(500)` leaves 2500, not 1500. -/
theorem construct_uninit_2000 :
    (SavingsAccount.construct 2000).checkBalance = 2000 ∧
    ((SavingsAccount.construct 2000).deposit 500).2 = Outcome.Confirmed 2500 ∧
    ((SavingsAccount.construct 2000).deposit 500).1.checkBalance = 2500 := by
  have h : (SavingsAccount.construct 2000).balance = 2000 := by
    have := construct_balance 2000
    simp only [SavingsAccount.checkBalance] at this
    rw [this]; norm_num
  simp only [SavingsAccount.deposit, SavingsAccount.checkBalance, h]
  norm_num

/-! Invariants over sequences of calls -/

/-- A call does not change the class of the object, hence not its floor. -/
theorem step_floor (a : Account) (op : Op) : (a.step op).1.floor = a.floor := by
  cases a <;> cases op <;> rfl

/-- A sequence of calls does not change the floor. -/
theorem run_floor (ops : List Op) : ∀ a : Account, (a.run ops).1.floor = a.floor := by
  induction ops with
  | nil => intro a; rfl
  | cons op ops ih =>
    intro a
    simp only [Account.run]
    rw [ih, step_floor]

/-- One call with a strictly positive amount keeps an account at or above
its floor. -/
theorem step_aboveFloor (a : Account) (op : Op) (ha : a.aboveFloor)
    (hop : op.amountPositive) : (a.step op).1.aboveFloor := by
  cases a with
  | savings s =>
    cases op with
    | deposit d =>
      simp only [Account.aboveFloor, Account.floor, Account.checkBalance,
        SavingsAccount.checkBalance, Account.step, Account.deposit, SavingsAccount.deposit,
        Op.amountPositive] at *
      linarith
    | withdraw w =>
      simp only [Account.aboveFloor, Account.floor, Account.checkBalance,
        SavingsAccount.checkBalance, Account.step, Account.withdraw, SavingsAccount.withdraw,
        Op.amountPositive] at *
      split_ifs with h1 h2
      · exact ha
      · exact ha
      · exact not_lt.mp h2
    | checkBalance => exact ha
  | current c =>
    cases op with
    | deposit d =>
      simp only [Account.aboveFloor, Account.floor, Account.checkBalance,
        CurrentAccount.checkBalance, Account.step, Account.deposit, CurrentAccount.deposit,
        Op.amountPositive] at *
      linarith
    | withdraw w =>
      simp only [Account.aboveFloor, Account.floor, Account.checkBalance,
        CurrentAccount.checkBalance, Account.step, Account.withdraw, CurrentAccount.withdraw,
        Op.amountPositive] at *
      split_ifs with h1
      · simpa using h1
      · exact ha
    | checkBalance => exact ha

/-- A sequence of calls with strictly positive amounts keeps an account at
or above its floor. -/
theorem run_aboveFloor (ops : List Op) :
    ∀ a : Account, a.aboveFloor → (∀ op ∈ ops, op.amountPositive) →
      (a.run ops).1.aboveFloor := by
  induction ops with
  | nil => intro a ha _; exact ha
  | cons op ops ih =>
    intro a ha hops
    simp only [Account.run]
    exact ih _ (step_aboveFloor a op ha (hops op (List.mem_cons_self op ops)))
      (fun o ho => hops o (List.mem_cons_of_mem op ho))

/-- C5. From a current account constructed with an initial balance that is
not negative, after every call of a sequence of deposits and withdrawals
whose amounts are strictly positive, `checkBalance()` returns a value that is
not negative: this holds after the first `k` calls for every `k`. -/
theorem current_balance_never_negative (b0 : ℚ) (hb0 : 0 ≤ b0) (ops : List Op)
    (hpos : ∀ op ∈ ops, op.amountPositive) (k : Nat) :
    0 ≤ ((Account.current (CurrentAccount.construct b0)).run (ops.take k)).1.checkBalance := by
  have h := run_aboveFloor (ops.take k) (Account.current (CurrentAccount.construct b0)) hb0
    (fun op hop => hpos op (List.mem_of_mem_take hop))
  unfold Account.aboveFloor at h
  rw [run_floor] at h
  exact h

/-- Witness for C5: the account of `main` (initial balance 0) under the
calls of scenarios 4 and 5. -/
theorem current_balance_never_negative_witness :
    (0 : ℚ) ≤ 0 ∧ (∀ op ∈ currentCalls, op.amountPositive) ∧
    0 ≤ ((Account.current (CurrentAccount.construct 0)).run
      (currentCalls.take 3)).1.checkBalance :=
  ⟨le_refl 0, by decide, current_balance_never_negative 0 (le_refl 0) currentCalls (by decide) 3⟩

/-! Single operations on a savings account -/

/-- C6, as stated, fails: on a savings account holding 1000, `deposit(-1)`
is confirmed and leaves 999, which is below 1000. -/
theorem savings_deposit_negative_breaks_minimum :
    1000 ≤ (SavingsAccount.mk 1000).checkBalance ∧
    ((SavingsAccount.mk 1000).deposit (-1)).2.isConfirmed = true ∧
    ((SavingsAccount.mk 1000).deposit (-1)).1.checkBalance = 999 ∧
    ¬ 1000 ≤ ((SavingsAccount.mk 1000).deposit (-1)).1.checkBalance := by
  simp only [SavingsAccount.deposit, SavingsAccount.checkBalance, Outcome.isConfirmed]
  norm_num

/-- C6, amended. On a savings account with balance at least 1000, the
balance is still at least 1000 after `deposit(amount)` whenever `amount` is
not negative, and after a confirmed `withdraw(amount)` for an amount of any
sign. -/
theorem savings_minimum_after_success (b amount : ℚ) (hb : 1000 ≤ b) :
    (0 ≤ amount → 1000 ≤ ((SavingsAccount.mk b).deposit amount).1.checkBalance) ∧
    (((SavingsAccount.mk b).withdraw amount).2.isConfirmed = true →
      1000 ≤ ((SavingsAccount.mk b).withdraw amount).1.checkBalance) := by
  constructor
  · intro ha
    simp only [SavingsAccount.deposit, SavingsAccount.checkBalance]
    linarith
  · intro _
    simp only [SavingsAccount.withdraw, SavingsAccount.checkBalance,
      SavingsAccount.MINIMUM_BALANCE]
    split_ifs with h1 h2
    · exact hb
    · exact hb
    · exact not_lt.mp h2

/-- Witness for C6 amended: balance 1500 and amount 500 (scenario 3); the
deposit leaves 2000 and the withdrawal is confirmed and leaves 1000. -/
theorem savings_minimum_after_success_witness :
    (1000 : ℚ) ≤ 1500 ∧ (0 : ℚ) ≤ 500 ∧
    ((SavingsAccount.mk 1500).withdraw 500).2.isConfirmed = true ∧
    1000 ≤ ((SavingsAccount.mk 1500).deposit 500).1.checkBalance ∧
    1000 ≤ ((SavingsAccount.mk 1500).withdraw 500).1.checkBalance :=
  have hc : ((SavingsAccount.mk 1500).withdraw 500).2.isConfirmed = true := by
    norm_num [SavingsAccount.withdraw, SavingsAccount.MINIMUM_BALANCE, Outcome.isConfirmed]
  ⟨by norm_num, by norm_num, hc,
    (savings_minimum_after_success 1500 500 (by norm_num)).1 (by norm_num),
    (savings_minimum_after_success 1500 500 (by norm_num)).2 hc⟩

/-- C8. For both classes and every balance `b`, `checkBalance()` returns `b`
and leaves the object as it was; `n` consecutive calls leave the object as it
was and all return the same value. -/
theorem checkBalance_pure (b : ℚ) (a : Account) (n : Nat) :
    (Account.savings (SavingsAccount.mk b)).checkBalance = b ∧
    (Account.current (CurrentAccount.mk b)).checkBalance = b ∧
    a.step Op.checkBalance = (a, Event.balance a.checkBalance) ∧
    a.run (List.replicate n Op.checkBalance) =
      (a, List.replicate n (Event.balance a.checkBalance)) := by
  refine ⟨rfl, rfl, rfl, ?_⟩
  induction n with
  | zero => rfl
  | succ n ih =>
    simp only [List.replicate_succ, Account.run, Account.step]
    rw [ih]

/-! InputHandler -/

/-- Whenever `getPositiveAmount` returns, the amount is strictly positive and
is the value of the read consumed last; every read before it left a value
that is not positive. -/
theorem getPositiveAmount_positive (reads : List (ReadOutcome ℚ)) :
    ∀ res : AmountResult, InputHandler.getPositiveAmount reads = some res →
      0 < res.amount ∧
      ∃ pre r, reads = pre ++ r :: res.rest ∧ r.value = res.amount ∧
        ∀ q ∈ pre, q.value ≤ 0 := by
  induction reads with
  | nil => intro res h; simp [InputHandler.getPositiveAmount] at h
  | cons r rest ih =>
    intro res h
    by_cases hr : r.value ≤ 0
    · rw [InputHandler.getPositiveAmount] at h
      simp only [hr, if_true] at h
      cases h0 : InputHandler.getPositiveAmount rest with
      | none => rw [h0] at h; exact Option.noConfusion h
      | some res0 =>
      rw [h0] at h
      simp only [Option.map, Option.some.injEq] at h
      obtain ⟨hpos, pre, r0, hsplit, hval, hpre⟩ := ih res0 h0
      subst h
      refine ⟨hpos, r :: pre, r0, ?_, hval, ?_⟩
      · simp [hsplit]
      · intro q hq
        rcases List.mem_cons.mp hq with rfl | hq
        · exact hr
        · exact hpre q hq
    · rw [InputHandler.getPositiveAmount] at h
      simp only [hr, if_false, Option.some.injEq] at h
      subst h
      exact ⟨not_le.mp hr, [], r, rfl, rfl, fun q hq => absurd hq (List.not_mem_nil q)⟩

/-- C9. A single read whose extraction failed and left `DBL_MAX` in the
variable (the user typed `1e999`): `getPositiveAmount` prints the notice
"Invalid input" once and returns `DBL_MAX`, an amount that comes from a
failed extraction. -/
theorem getPositiveAmount_returns_failed_read :
    InputHandler.getPositiveAmount [{ failed := true, value := DBL_MAX }] =
      some { amount := DBL_MAX, invalidNotices := 1, rest := [] } := by
  have h : ¬ DBL_MAX ≤ 0 := by
    unfold DBL_MAX
    exact not_le.mpr (by positivity)
  simp [InputHandler.getPositiveAmount, h]

/-- C10. Whenever `getMenuChoice(min, max)` returns, the choice lies in
`[min, max]` and is the value of a read whose extraction did not fail; every
read before it failed or was outside `[min, max]` (and each of them was
answered by one notice). -/
theorem getMenuChoice_returns_valid (min max : Int) (reads : List (ReadOutcome Int))
    (res : ChoiceResult) (h : InputHandler.getMenuChoice min max reads = some res) :
    min ≤ res.choice ∧ res.choice ≤ max ∧
    ∃ pre r, reads = pre ++ r :: res.rest ∧ r.failed = false ∧ r.value = res.choice ∧
      (∀ q ∈ pre, q.rejectedChoice min max) ∧ res.invalidNotices = pre.length := by
  induction reads generalizing res with
  | nil => simp [InputHandler.getMenuChoice] at h
  | cons r rest ih =>
    by_cases hr : (r.failed || decide (r.value < min) || decide (r.value > max)) = true
    · rw [InputHandler.getMenuChoice] at h
      simp only [hr, if_true] at h
      cases h0 : InputHandler.getMenuChoice min max rest with
      | none => rw [h0] at h; exact Option.noConfusion h
      | some res0 =>
      rw [h0] at h
      simp only [Option.map, Option.some.injEq] at h
      obtain ⟨hlo, hhi, pre, r0, hsplit, hfail, hval, hpre, hcount⟩ := ih res0 h0
      subst h
      refine ⟨hlo, hhi, r :: pre, r0, ?_, hfail, hval, ?_, ?_⟩
      · simp [hsplit]
      · intro q hq
        rcases List.mem_cons.mp hq with rfl | hq
        · simpa [ReadOutcome.rejectedChoice, or_assoc] using hr
        · exact hpre q hq
      · simp [hcount, Nat.add_comm]
    · rw [InputHandler.getMenuChoice] at h
      simp only [hr, Bool.false_eq_true, if_false, Option.some.injEq] at h
      subst h
      simp only [Bool.or_eq_true, decide_eq_true_eq, not_or, Bool.not_eq_true, not_lt,
        gt_iff_lt] at hr
      exact ⟨hr.1.2, hr.2, [], r, rfl, hr.1.1, rfl,
        fun q hq => absurd hq (List.not_mem_nil q), rfl⟩

/-- Witness for C10: at the main menu, after a failed read and the number 7,
the number 2 is returned. -/
theorem getMenuChoice_returns_valid_witness :
    InputHandler.getMenuChoice 1 3 menuReads =
      some { choice := 2, invalidNotices := 2, rest := [] } ∧
    (1 : Int) ≤ 2 ∧ (2 : Int) ≤ 3 ∧
    ∃ pre r, menuReads = pre ++ r :: [] ∧ r.failed = false ∧ r.value = 2 ∧
      (∀ q ∈ pre, q.rejectedChoice 1 3) ∧ 2 = pre.length :=
  ⟨by decide, getMenuChoice_returns_valid 1 3 menuReads
    { choice := 2, invalidNotices := 2, rest := [] } (by decide)⟩

/-- The function `getMenuChoice(min, max)` returns as soon as some read did
not fail and lies in `[min, max]`. -/
theorem getMenuChoice_returns (min max : Int) (reads : List (ReadOutcome Int))
    (h : ∃ r ∈ reads, r.failed = false ∧ min ≤ r.value ∧ r.value ≤ max) :
    (InputHandler.getMenuChoice min max reads).isSome = true := by
  induction reads with
  | nil => obtain ⟨r, hr, _⟩ := h; exact absurd hr (List.not_mem_nil r)
  | cons r rest ih =>
    by_cases hr : (r.failed || decide (r.value < min) || decide (r.value > max)) = true
    · have hrest : ∃ q ∈ rest, q.failed = false ∧ min ≤ q.value ∧ q.value ≤ max := by
        obtain ⟨q, hq, hf, hlo, hhi⟩ := h
        rcases List.mem_cons.mp hq with rfl | hq
        · exfalso
          simp only [Bool.or_eq_true, decide_eq_true_eq, gt_iff_lt] at hr
          rcases hr with (hr | hr) | hr
          · rw [hf] at hr; exact Bool.noConfusion hr
          · exact absurd hlo (not_le.mpr hr)
          · exact absurd hhi (not_le.mpr hr)
        · exact ⟨q, hq, hf, hlo, hhi⟩
      simp only [InputHandler.getMenuChoice, hr, if_true, Option.isSome_map]
      simpa using ih hrest
    · simp [InputHandler.getMenuChoice, hr]

end Bank
